import Mathlib

/-!
Shallow embedding of the poem CLI tool (src/main.rs): the Poem record, the
tantivy-facing schema builder, the Document mapper, the index lifecycle
function, the frequency-count aggregation and the Random command's
rejection-sampling loop, together with theorems checking the spec's claims.
-/

namespace PoemSpec

/-- The Poem record (struct Poem): four string fields, with derived
structural equality, hashing and serde instances. -/
structure Poem where
  title : String
  author : String
  dynasty : String
  content : String
deriving DecidableEq, Repr

/-- The derived PartialEq of struct Poem: field-by-field comparison of all
four fields, in declaration order. -/
def poemBEq (p q : Poem) : Bool :=
  p.title == q.title && p.author == q.author && p.dynasty == q.dynasty
    && p.content == q.content

/-- Index record option of a text field (tantivy IndexRecordOption). -/
inductive IndexRecordOption where
  | basic
  | withFreqs
  | withFreqsAndPositions
deriving DecidableEq, Repr

/-- Indexing configuration of a text field (tantivy TextFieldIndexing):
the tokenizer name and the record option. -/
structure TextFieldIndexing where
  tokenizer : String
  indexOption : IndexRecordOption
deriving DecidableEq, Repr

/-- tantivy TextFieldIndexing::default(): default tokenizer, basic records. -/
def TextFieldIndexing.default : TextFieldIndexing :=
  { tokenizer := "default", indexOption := .basic }

def TextFieldIndexing.set_tokenizer (t : TextFieldIndexing) (name : String) :
    TextFieldIndexing :=
  { t with tokenizer := name }

def TextFieldIndexing.set_index_option (t : TextFieldIndexing)
    (opt : IndexRecordOption) : TextFieldIndexing :=
  { t with indexOption := opt }

/-- Options of a text field (tantivy TextOptions): optional indexing
configuration and the stored flag. -/
structure TextOptions where
  indexing : Option TextFieldIndexing
  stored : Bool
deriving DecidableEq, Repr

/-- tantivy TextOptions::default(): not indexed, not stored. -/
def TextOptions.default : TextOptions :=
  { indexing := none, stored := false }

def TextOptions.set_indexing_options (o : TextOptions) (t : TextFieldIndexing) :
    TextOptions :=
  { o with indexing := some t }

def TextOptions.set_stored (o : TextOptions) : TextOptions :=
  { o with stored := true }

/-- The fixed tokenizer name constant CANG_JIE of the external cang_jie
crate, under which the CJK tokenizer is registered. Its concrete string
value is opaque to this program; only its consistent use matters. -/
def CANG_JIE : String := "CANG_JIE"

/-- The cang_jie tokenizer option chosen by the program. -/
inductive TokenizerOption where
  | unicode
deriving DecidableEq, Repr

/-- The CJK tokenizer value (struct CangJieTokenizer): a jieba worker and a
segmentation option. The program builds it with Jieba::empty(), an empty
dictionary, recorded here as a flag. -/
structure CangJieTokenizer where
  emptyDict : Bool
  option : TokenizerOption
deriving DecidableEq, Repr

/-- fn tokenizer(): CangJieTokenizer with an empty jieba dictionary and
unicode (codepoint-level) segmentation. -/
def tokenizer : CangJieTokenizer :=
  { emptyDict := true, option := .unicode }

/-- tantivy Schema: the ordered list of (field name, text options) entries.
A field handle is the position at which the field was added. -/
structure Schema where
  fields : List (String × TextOptions)
deriving DecidableEq, Repr

/-- tantivy SchemaBuilder: accumulates fields in order. -/
structure SchemaBuilder where
  fields : List (String × TextOptions)
deriving DecidableEq, Repr

def SchemaBuilder.default : SchemaBuilder := { fields := [] }

/-- SchemaBuilder::add_text_field: appends the field and returns its handle,
the index of the field in addition order. -/
def SchemaBuilder.add_text_field (b : SchemaBuilder) (name : String)
    (opts : TextOptions) : SchemaBuilder × Nat :=
  ({ fields := b.fields ++ [(name, opts)] }, b.fields.length)

def SchemaBuilder.build (b : SchemaBuilder) : Schema := { fields := b.fields }

/-- fn build_schema() of src/main.rs: four text fields title, author,
dynasty, content, each stored and indexed with freqs-and-positions under the
CANG_JIE tokenizer, plus the name-to-handle map (the HashMap is modelled as
the association list of its four insertions; all keys are distinct). -/
def build_schema : Schema × List (String × Nat) :=
  let text_indexing :=
    (TextFieldIndexing.default.set_tokenizer CANG_JIE).set_index_option
      .withFreqsAndPositions
  let text_options :=
    (TextOptions.default.set_indexing_options text_indexing).set_stored
  let b0 := SchemaBuilder.default
  let (b1, title) := b0.add_text_field "title" text_options
  let (b2, author) := b1.add_text_field "author" text_options
  let (b3, dynasty) := b2.add_text_field "dynasty" text_options
  let (b4, content) := b3.add_text_field "content" text_options
  (b4.build,
    [("title", title), ("author", author), ("dynasty", dynasty),
      ("content", content)])

/-- A tantivy field value. The program only ever stores text values; the
other constructor stands for every non-text value kind. -/
inductive Value where
  | text (s : String)
  | nonText
deriving DecidableEq, Repr

/-- Value::text(): the text content when the value is a text value. -/
def Value.textValue : Value → Option String
  | .text s => some s
  | .nonText => none

/-- tantivy Document: the list of (field handle, value) pairs in insertion
order. -/
structure Document where
  field_values : List (Nat × Value)
deriving DecidableEq, Repr

def Document.new : Document := { field_values := [] }

/-- Document::add_text: appends a text value for the field. -/
def Document.add_text (d : Document) (f : Nat) (s : String) : Document :=
  { field_values := d.field_values ++ [(f, .text s)] }

/-- Document::get_all: all values of the field, in insertion order. -/
def Document.get_all (d : Document) (f : Nat) : List Value :=
  (d.field_values.filter (fun p => p.1 == f)).map (·.2)

/-- fn extract_field_text: first value of the field, required to be text.
The two unwraps of the source are modelled as the Option chain. -/
def extract_field_text (doc : Document) (field : Nat) : Option String :=
  (doc.get_all field).head?.bind Value.textValue

/-- impl From of Poem for Document: resolve the four handles from a fresh
build_schema call and add the four texts. The unwraps on the map lookups are
modelled as Option binds. -/
def poem_to_document (p : Poem) : Option Document :=
  let fields := build_schema.2
  (fields.lookup "title").bind fun ft =>
  (fields.lookup "author").bind fun fa =>
  (fields.lookup "dynasty").bind fun fd =>
  (fields.lookup "content").bind fun fc =>
  some ((((Document.new.add_text ft p.title).add_text fa p.author).add_text
    fd p.dynasty).add_text fc p.content)

/-- impl From of Document for Poem: resolve the four handles from a fresh
build_schema call and extract the four field texts. -/
def document_to_poem (doc : Document) : Option Poem :=
  let fields := build_schema.2
  (fields.lookup "title").bind fun ft =>
  (fields.lookup "author").bind fun fa =>
  (fields.lookup "dynasty").bind fun fd =>
  (fields.lookup "content").bind fun fc =>
  (extract_field_text doc ft).bind fun t =>
  (extract_field_text doc fa).bind fun a =>
  (extract_field_text doc fd).bind fun dy =>
  (extract_field_text doc fc).bind fun c =>
  some { title := t, author := a, dynasty := dy, content := c }

/-- A valid tantivy index stored on disk at the index path: its bound schema
and its committed documents. -/
structure StoredIndex where
  schema : Schema
  docs : List Document
deriving DecidableEq, Repr

/-- The state of the directory at the index path: whether the directory
exists, and the valid stored index inside it, if any. -/
structure DirState where
  dirExists : Bool
  stored : Option StoredIndex
deriving DecidableEq, Repr

/-- An in-memory tantivy Index handle: the bound schema, the committed
documents, and the tokenizers registered on this handle (registration is
per-handle, never persisted). -/
structure IndexHandle where
  schema : Schema
  docs : List Document
  tokenizers : List (String × CangJieTokenizer)
deriving DecidableEq, Repr

/-- Error of Index::open_in_dir when no valid index exists at the path. -/
inductive IndexError where
  | openFailed
deriving DecidableEq, Repr

/-- fs::remove_dir_all: the directory and all its contents are gone. -/
def remove_dir_all (_ : DirState) : DirState :=
  { dirExists := false, stored := none }

/-- fs::create_dir_all: the directory exists afterwards. -/
def create_dir_all (d : DirState) : DirState :=
  { d with dirExists := true }

/-- Index::create_in_dir: a brand-new empty index bound to the given schema
is stored at the path and a handle to it is returned, with no tokenizers
registered yet. -/
def Index.create_in_dir (d : DirState) (schema : Schema) :
    IndexHandle × DirState :=
  ({ schema := schema, docs := [], tokenizers := [] },
    { d with stored := some { schema := schema, docs := [] } })

/-- Index::open_in_dir: a handle to the valid stored index, or an error when
there is none. -/
def Index.open_in_dir (d : DirState) : Except IndexError IndexHandle :=
  match d.stored with
  | none => .error .openFailed
  | some si => .ok { schema := si.schema, docs := si.docs, tokenizers := [] }

/-- TokenizerManager::register on an index handle. -/
def IndexHandle.register (h : IndexHandle) (name : String)
    (tok : CangJieTokenizer) : IndexHandle :=
  { h with tokenizers := h.tokenizers ++ [(name, tok)] }

/-- fn open_or_create_index of src/main.rs: in read-only mode open the
existing index (error when none); otherwise remove the directory when it
exists, recreate it, and create a fresh empty index with the current schema.
In both modes the CANG_JIE tokenizer is registered on the handle before it
is returned. Returns the handle together with the resulting directory
state. -/
def open_or_create_index (dir : DirState) (read_only : Bool) :
    Except IndexError (IndexHandle × DirState) :=
  let (schema, _) := build_schema
  let opened : Except IndexError (IndexHandle × DirState) :=
    if read_only then
      match Index.open_in_dir dir with
      | .error e => .error e
      | .ok h => .ok (h, dir)
    else
      let dir1 := if dir.dirExists then remove_dir_all dir else dir
      let dir2 := create_dir_all dir1
      let (h, dir3) := Index.create_in_dir dir2 schema
      .ok (h, dir3)
  match opened with
  | .error e => .error e
  | .ok (h, d) => .ok (h.register CANG_JIE tokenizer, d)

/-- The count map built by fn words_count: a HashMap from word to i32
count, modelled as the function obtained by folding the entry-or-insert
increment over the input words. -/
def countMap (words : List String) : String → Int :=
  words.foldl (fun m w => fun k => if k = w then m k + 1 else m k)
    (fun _ => 0)

/-- Stable insertion of a pair into a list sorted ascending by the key
minus count, placing the new pair before the first element whose key is
greater or equal; together with sortByNegCount this models the stable
sort_by_key of the source. -/
def insertByNegCount (x : String × Int) : List (String × Int) →
    List (String × Int)
  | [] => [x]
  | y :: ys => if -x.2 ≤ -y.2 then x :: y :: ys else y :: insertByNegCount x ys

/-- Stable sort of the (word, count) pairs ascending by minus count, that
is descending by count: Vec::sort_by_key with key -p.1, a stable sort. -/
def sortByNegCount : List (String × Int) → List (String × Int)
  | [] => []
  | x :: xs => insertByNegCount x (sortByNegCount xs)

/-- fn words_count of src/main.rs. The HashMap iteration order of
into_iter is not specified; it is modelled by the extra parameter iter,
the order in which the distinct words come out of the map (a permutation
of the distinct words of the input, see validIterOrder). -/
def words_count (words : List String) (sorted : Bool) (iter : List String) :
    List (String × Int) :=
  let pairs := iter.map fun w => (w, countMap words w)
  if sorted then sortByNegCount pairs else pairs

/-- The iteration orders the HashMap of words_count can produce: exactly
the distinct words of the input, in some order. -/
def validIterOrder (words iter : List String) : Prop :=
  iter.Perm words.dedup

instance (words iter : List String) : Decidable (validIterOrder words iter) :=
  inferInstanceAs (Decidable (iter.Perm words.dedup))

/-- struct Stat: total poem count and the per-author and per-dynasty
(value, count) lists. -/
structure Stat where
  total : Int
  author : List (String × Int)
  dynasty : List (String × Int)
deriving DecidableEq, Repr

/-- Stat::new. -/
def Stat.new (total : Int) (author dynasty : List (String × Int)) : Stat :=
  { total := total, author := author, dynasty := dynasty }

/-- The Stat command arm of fn main: collect the author and dynasty columns
and build the Stat from words_count. The two HashMap iteration orders are
passed as parameters. -/
def statCommand (poems : List Poem) (sorted : Bool)
    (iterA iterD : List String) : Stat :=
  let dynasty := poems.map (·.dynasty)
  let author := poems.map (·.author)
  Stat.new (poems.length : Int) (words_count author sorted iterA)
    (words_count dynasty sorted iterD)

/-- Fallback value for list indexing; the Random arm only ever indexes in
range, so it is never returned. -/
def defaultPoem : Poem :=
  { title := "", author := "", dynasty := "", content := "" }

/-- HashSet::insert on the deduplicating set of the Random arm, the set
modelled as the duplicate-free list of its elements: inserting a present
element leaves the set unchanged. -/
def hashSetInsert (p : Poem) (s : List Poem) : List Poem :=
  if p ∈ s then s else p :: s

/-- The rejection-sampling loop of the Random command arm: while the set
has fewer than count elements, draw the next random index and insert the
poem at it. The infinite random stream is modelled by the finite prefix
draws of gen_range results (each reduced modulo the corpus length, which
gen_range never exceeds); exhausting the prefix without reaching count
yields none, and the loop terminates for some randomness exactly when some
finite prefix yields some set. -/
def sampleLoop (poems : List Poem) (count : Nat) :
    List Nat → List Poem → Option (List Poem)
  | [], s => if count ≤ s.length then some s else none
  | d :: rest, s =>
    if count ≤ s.length then some s
    else
      sampleLoop poems count rest
        (hashSetInsert (poems.getD (d % poems.length) defaultPoem) s)

/-- Outcome of the Random command arm: the no-poem message on an empty
corpus, the sampled set of poems (as the duplicate-free list the HashSet
enumerates), or a loop still running after the given randomness prefix. -/
inductive RandomResult where
  | noPoem
  | sampled (s : List Poem)
  | running
deriving DecidableEq

/-- The Random command arm of fn main: print the no-poem message on an
empty corpus, clamp count to the corpus length, then run the
rejection-sampling loop. -/
def randomCommand (poems : List Poem) (count : Nat) (draws : List Nat) :
    RandomResult :=
  if poems.isEmpty then .noPoem
  else
    let count1 := if count > poems.length then poems.length else count
    match sampleLoop poems count1 draws [] with
    | some s => .sampled s
    | none => .running

/-- Exit status of the process after the Random arm: 0 for the no-poem
message and for a sampled set; none when the loop is still running. -/
def RandomResult.exitCode : RandomResult → Option Nat
  | .noPoem => some 0
  | .sampled _ => some 0
  | .running => none

/-- The poems printed by the Random arm, one per element of the sampled
set. -/
def RandomResult.printedPoems : RandomResult → List Poem
  | .sampled s => s
  | _ => []

/-- The message printed by the Random arm, if any. -/
def RandomResult.printedMessage : RandomResult → Option String
  | .noPoem => some "no poem in repo"
  | _ => none

/-- The loop of the Random arm never terminates on this corpus and count:
every finite randomness prefix leaves it running. -/
def neverTerminates (poems : List Poem) (count : Nat) : Prop :=
  ∀ draws : List Nat, sampleLoop poems count draws [] = none

/-- Modelled from the spec: the shuffle-and-take sampling strategy of
section 4.6 - shuffle the full corpus uniformly at random and take the
first count poems. The shuffled corpus (a permutation of the corpus) is the
strategy's randomness. This algorithm is absent from src; it is the
reference the refinement claim compares against. -/
def shuffle_and_take (shuffled : List Poem) (count : Nat) : List Poem :=
  shuffled.take count

/-- The set of poems hit by a list of index draws into the corpus. -/
def drawnSet (poems : List Poem) (draws : List Nat) : Finset Poem :=
  (draws.map fun d => poems.getD (d % poems.length) defaultPoem).toFinset

/-- Modelled from the spec: rejection sampling of section 4.6 - repeatedly
draw a uniformly random index and insert into a deduplicating set until it
reaches count distinct poems. Formulated as a first-hitting-time over the
randomness prefix: the result is the drawn set of the shortest prefix whose
set reaches count elements, none when no prefix within draws does. -/
def rejection_sampling (poems : List Poem) (count : Nat) (draws : List Nat) :
    Option (Finset Poem) :=
  match (List.range (draws.length + 1)).find?
      (fun k => count ≤ (drawnSet poems (draws.take k)).card) with
  | some k => some (drawnSet poems (draws.take k))
  | none => none

/-- Concrete poems used as witnesses and counterexamples. -/
def pA : Poem := { title := "A", author := "X", dynasty := "Tang", content := "c1" }

def pB : Poem := { title := "B", author := "X", dynasty := "Song", content := "c2" }

/-- A corpus holding the same record twice. -/
def dupCorpus : List Poem := [pA, pA]

/-- A poem sharing title and author with pA but differing in dynasty and
content. -/
def pC : Poem := { title := "A", author := "X", dynasty := "Song", content := "c9" }

/-!  Theorems.  -/

/-- Claim C1: for every Poem record P, converting P to a search Document
and back yields P again: document_to_poem after poem_to_document returns
exactly P in all four fields. -/
theorem mapper_round_trip (p : Poem) :
    (poem_to_document p).bind document_to_poem = some p := rfl

/-- Claim C4 counterexample: the poems pA and pC agree on title and author
but differ in dynasty and content, and the derived equality of struct Poem
used by the deduplicating HashSet distinguishes them, contradicting the
claim that equality is determined by the (title, author) pair alone. -/
theorem poem_equality_counterexample :
    pA.title = pC.title ∧ pA.author = pC.author ∧
      poemBEq pA pC = false ∧ pA ≠ pC := by decide

/-- Claim C4 amended: the equality used to deduplicate poems is full
structural equality: two Poem records compare equal exactly when all four
fields, title, author, dynasty and content, agree. -/
theorem poem_equality_structural (p q : Poem) :
    (poemBEq p q = true ↔ p = q) ∧
      (poemBEq p q = true ↔ p.title = q.title ∧ p.author = q.author ∧
        p.dynasty = q.dynasty ∧ p.content = q.content) := by
  obtain ⟨t, a, d, c⟩ := p
  obtain ⟨t', a', d', c'⟩ := q
  simp [poemBEq, Poem.mk.injEq, and_assoc]

/-- Claim C5: build_schema defines exactly the four text fields title,
author, dynasty, content, in that order, each stored and indexed with the
freqs-and-positions record option under the CANG_JIE tokenizer name, and
the name-to-handle map sends them to the handles 0, 1, 2, 3 of the
addition order. The function is a constant of the embedding, so any two
invocations yield this same schema and mapping. -/
theorem build_schema_spec :
    build_schema.1.fields.map Prod.fst
        = ["title", "author", "dynasty", "content"] ∧
      build_schema.1.fields.map Prod.snd
        = List.replicate 4
          { indexing := some
              { tokenizer := CANG_JIE
                indexOption := .withFreqsAndPositions }
            stored := true } ∧
      build_schema.2
        = [("title", 0), ("author", 1), ("dynasty", 2), ("content", 3)] ∧
      build_schema.2.lookup "title" = some 0 ∧
      build_schema.2.lookup "author" = some 1 ∧
      build_schema.2.lookup "dynasty" = some 2 ∧
      build_schema.2.lookup "content" = some 3 := by decide

/-- Claim C6: open_or_create_index in write mode wipes whatever is at the
path and leaves a fresh directory holding a brand-new empty index bound to
the current schema, regardless of the previous directory state; in
read-only mode it opens the valid stored index when there is one and fails
without touching anything when there is none; in both modes the returned
handle carries the CANG_JIE tokenizer registration. -/
theorem open_or_create_index_spec (dir : DirState) :
    open_or_create_index dir false =
      .ok ({ schema := build_schema.1
             docs := []
             tokenizers := [(CANG_JIE, tokenizer)] },
           { dirExists := true
             stored := some { schema := build_schema.1, docs := [] } }) ∧
    open_or_create_index dir true =
      (match dir.stored with
       | none => .error .openFailed
       | some si =>
         .ok ({ schema := si.schema
                docs := si.docs
                tokenizers := [(CANG_JIE, tokenizer)] }, dir)) := by
  obtain ⟨de, st⟩ := dir
  cases st <;> cases de <;> exact ⟨rfl, rfl⟩

/-- The count-map fold evaluated at a key: the start value plus the number
of occurrences of the key in the folded words. -/
theorem countMap_fold (l : List String) (m : String → Int) (k : String) :
    (l.foldl (fun m w => fun j => if j = w then m j + 1 else m j) m) k
      = m k + (l.count k : Int) := by
  induction l generalizing m with
  | nil => simp
  | cons a l ih =>
    rw [List.foldl_cons, ih, List.count_cons]
    by_cases h : k = a
    · subst h
      simp
      ring
    · have h' : (a == k) = false := beq_eq_false_iff_ne.mpr fun e => h e.symm
      simp [h, h']

/-- countMap gives the occurrence count of each word. -/
theorem countMap_eq_count (words : List String) (w : String) :
    countMap words w = (words.count w : Int) := by
  simpa using countMap_fold words (fun _ => 0) w

/-- Stable insertion permutes the inserted pair onto the list. -/
theorem insertByNegCount_perm (x : String × Int) (l : List (String × Int)) :
    (insertByNegCount x l).Perm (x :: l) := by
  induction l with
  | nil => exact List.Perm.refl _
  | cons y ys ih =>
    rw [insertByNegCount]
    split
    · exact List.Perm.refl _
    · exact (ih.cons y).trans (List.Perm.swap x y ys)

/-- The stable sort of words_count permutes its input. -/
theorem sortByNegCount_perm (l : List (String × Int)) :
    (sortByNegCount l).Perm l := by
  induction l with
  | nil => exact List.Perm.refl _
  | cons x xs ih => exact (insertByNegCount_perm x _).trans (ih.cons x)

/-- Stable insertion keeps the list sorted descending by count. -/
theorem insertByNegCount_sorted (x : String × Int) (l : List (String × Int))
    (h : l.Pairwise (fun p q => q.2 ≤ p.2)) :
    (insertByNegCount x l).Pairwise (fun p q => q.2 ≤ p.2) := by
  induction l with
  | nil => simp [insertByNegCount]
  | cons y ys ih =>
    rw [insertByNegCount]
    rw [List.pairwise_cons] at h
    split
    · rename_i hxy
      refine List.pairwise_cons.mpr ⟨?_, List.pairwise_cons.mpr h⟩
      intro z hz
      rcases List.mem_cons.mp hz with hz | hz
      · subst hz
        omega
      · have := h.1 z hz
        omega
    · rename_i hxy
      refine List.pairwise_cons.mpr ⟨?_, ih h.2⟩
      intro z hz
      have hz' : z ∈ x :: ys := (insertByNegCount_perm x ys).mem_iff.mp hz
      rcases List.mem_cons.mp hz' with hz' | hz'
      · subst hz'
        omega
      · exact h.1 z hz'

/-- The sort of words_count yields a list sorted descending by count. -/
theorem sortByNegCount_sorted (l : List (String × Int)) :
    (sortByNegCount l).Pairwise (fun p q => q.2 ≤ p.2) := by
  induction l with
  | nil =>
    rw [sortByNegCount]
    exact List.Pairwise.nil
  | cons x xs ih => exact insertByNegCount_sorted x _ ih

/-- Sum of a pointwise sum of maps. -/
theorem sum_map_add (keys : List String) (f g : String → Int) :
    (keys.map fun w => f w + g w).sum = (keys.map f).sum + (keys.map g).sum := by
  induction keys with
  | nil => simp
  | cons a ks ih =>
    simp [ih]
    ring

/-- Sum of the indicator of a key absent from the list. -/
theorem sum_indicator_not_mem (keys : List String) (a : String)
    (h : a ∉ keys) :
    (keys.map fun w => if w = a then (1 : Int) else 0).sum = 0 := by
  induction keys with
  | nil => simp
  | cons b ks ih =>
    rw [List.mem_cons] at h
    push_neg at h
    have hb : ¬ b = a := fun e => h.1 e.symm
    simp [hb, ih h.2]

/-- Sum of the indicator of a key occurring exactly once. -/
theorem sum_indicator_mem (keys : List String) (a : String)
    (hnd : keys.Nodup) (hm : a ∈ keys) :
    (keys.map fun w => if w = a then (1 : Int) else 0).sum = 1 := by
  induction keys with
  | nil => cases hm
  | cons b ks ih =>
    rw [List.nodup_cons] at hnd
    rcases List.mem_cons.mp hm with hm | hm
    · subst hm
      simp [sum_indicator_not_mem ks a hnd.1]
    · have hba : ¬ b = a := by
        intro e
        exact hnd.1 (e ▸ hm)
      simp [hba, ih hnd.2 hm]

/-- Summing the occurrence counts of a list over a duplicate-free cover of
its values gives the length of the list. -/
theorem sum_counts (l keys : List String) (hnd : keys.Nodup)
    (hcov : ∀ w, w ∈ l → w ∈ keys) :
    (keys.map fun w => ((l.count w : Nat) : Int)).sum = l.length := by
  induction l with
  | nil => simp
  | cons a l ih =>
    have ha : a ∈ keys := hcov a (List.mem_cons_self a l)
    have step : (keys.map fun w => (((a :: l).count w : Nat) : Int))
        = keys.map fun w =>
            ((l.count w : Nat) : Int) + if w = a then (1 : Int) else 0 := by
      refine List.map_congr_left ?_
      intro w _
      rw [List.count_cons]
      by_cases h : w = a
      · subst h
        simp
      · have h' : (a == w) = false := beq_eq_false_iff_ne.mpr fun e => h e.symm
        simp [h, h']
    rw [step, sum_map_add, ih (fun w hw => hcov w (List.mem_cons_of_mem a hw)),
      sum_indicator_mem keys a hnd ha]
    simp [List.length_cons]

/-- The counts produced by words_count sum to the number of input words,
whatever the HashMap iteration order and the sort flag. -/
theorem words_count_sum (l : List String) (sorted : Bool)
    (iter : List String) (h : validIterOrder l iter) :
    ((words_count l sorted iter).map Prod.snd).sum = (l.length : Int) := by
  have hpairs : ∀ pairs : List (String × Int), pairs.Perm
      (iter.map fun w => (w, countMap l w)) →
      (pairs.map Prod.snd).sum = (l.length : Int) := by
    intro pairs hp
    rw [(hp.map Prod.snd).sum_eq]
    have : (iter.map fun w => (w, countMap l w)).map Prod.snd
        = iter.map fun w => ((l.count w : Nat) : Int) := by
      rw [List.map_map]
      refine List.map_congr_left ?_
      intro w _
      simpa using countMap_eq_count l w
    rw [this, ((h.map fun w => ((l.count w : Nat) : Int)).sum_eq)]
    exact sum_counts l l.dedup l.nodup_dedup fun w hw => List.mem_dedup.mpr hw
  rw [words_count]
  cases sorted with
  | false => exact hpairs _ (List.Perm.refl _)
  | true => exact hpairs _ (by simpa using sortByNegCount_perm _)

/-- Claim C7: for every corpus and either sort setting, the per-author
counts of the Stat sum to the reported total, and so do the per-dynasty
counts (the iteration orders of the two hash maps being arbitrary
enumerations of the distinct values). -/
theorem stat_sums (poems : List Poem) (sorted : Bool)
    (iterA iterD : List String)
    (hA : validIterOrder (poems.map (·.author)) iterA)
    (hD : validIterOrder (poems.map (·.dynasty)) iterD) :
    ((statCommand poems sorted iterA iterD).author.map Prod.snd).sum
        = (statCommand poems sorted iterA iterD).total ∧
      ((statCommand poems sorted iterA iterD).dynasty.map Prod.snd).sum
        = (statCommand poems sorted iterA iterD).total := by
  constructor
  · rw [statCommand]
    simp only [Stat.new]
    rw [words_count_sum _ sorted iterA hA]
    simp
  · rw [statCommand]
    simp only [Stat.new]
    rw [words_count_sum _ sorted iterD hD]
    simp

/-- Claim C7 witness at the two-poem corpus of the spec's concrete
scenario. -/
theorem stat_sums_witness :
    ((statCommand [pA, pB] true ["X"] ["Tang", "Song"]).author.map
        Prod.snd).sum
        = (statCommand [pA, pB] true ["X"] ["Tang", "Song"]).total ∧
      ((statCommand [pA, pB] true ["X"] ["Tang", "Song"]).dynasty.map
        Prod.snd).sum
        = (statCommand [pA, pB] true ["X"] ["Tang", "Song"]).total :=
  stat_sums [pA, pB] true ["X"] ["Tang", "Song"] (by decide) (by decide)

/-- Claim C8 counterexample: on the words a, b with tied counts, two
iteration orders that the hash map may legitimately produce lead
words_count with sorting requested to two different output sequences, so
the output is not deterministic across runs. -/
theorem words_count_tie_counterexample :
    validIterOrder ["a", "b"] ["a", "b"] ∧
      validIterOrder ["a", "b"] ["b", "a"] ∧
      words_count ["a", "b"] true ["a", "b"]
        ≠ words_count ["a", "b"] true ["b", "a"] := by decide

/-- Claim C8 amended: with sorting requested words_count returns the
(value, count) pairs in descending order of count, but the relative order
of pairs with tied counts follows the hash map's iteration order, which the
code does not fix across runs. -/
theorem words_count_sorted_desc (words iter : List String)
    (_h : validIterOrder words iter) :
    (words_count words true iter).Pairwise (fun p q => q.2 ≤ p.2) := by
  rw [words_count]
  exact sortByNegCount_sorted _

/-- Claim C8 amended witness. -/
theorem words_count_sorted_desc_witness :
    (words_count ["a", "b", "a"] true ["b", "a"]).Pairwise
      (fun p q => q.2 ≤ p.2) :=
  words_count_sorted_desc ["a", "b", "a"] ["b", "a"] (by decide)

/-- Inserting into the HashSet keeps the list duplicate-free. -/
theorem hashSetInsert_nodup (p : Poem) (s : List Poem) (h : s.Nodup) :
    (hashSetInsert p s).Nodup := by
  by_cases hp : p ∈ s <;> simp [hashSetInsert, hp, h]

/-- Inserting into the HashSet grows the list by at most one element. -/
theorem hashSetInsert_length_le (p : Poem) (s : List Poem) :
    (hashSetInsert p s).length ≤ s.length + 1 := by
  by_cases hp : p ∈ s <;> simp [hashSetInsert, hp]

/-- Membership after a HashSet insertion. -/
theorem hashSetInsert_mem (q p : Poem) (s : List Poem) :
    q ∈ hashSetInsert p s ↔ q = p ∨ q ∈ s := by
  by_cases hp : p ∈ s
  · simp only [hashSetInsert, if_pos hp]
    constructor
    · exact Or.inr
    · rintro (rfl | hq)
      · exact hp
      · exact hq
  · simp [hashSetInsert, hp]

/-- HashSet insertion as a Finset insertion. -/
theorem hashSetInsert_toFinset (p : Poem) (s : List Poem) :
    (hashSetInsert p s).toFinset = insert p s.toFinset := by
  by_cases hp : p ∈ s
  · simp only [hashSetInsert, if_pos hp]
    exact (Finset.insert_eq_self.mpr (List.mem_toFinset.mpr hp)).symm
  · simp [hashSetInsert, hp]

/-- The drawn poem of one loop iteration belongs to the corpus. -/
theorem drawnPoem_mem (poems : List Poem) (hne : poems ≠ []) (d : Nat) :
    poems.getD (d % poems.length) defaultPoem ∈ poems := by
  have hlt : d % poems.length < poems.length :=
    Nat.mod_lt d (List.length_pos.mpr hne)
  rw [List.getD_eq_getElem poems defaultPoem hlt]
  exact List.getElem_mem hlt

/-- What a terminating run of the rejection-sampling loop returns: starting
from a duplicate-free set of corpus poems no larger than count, the final
set is duplicate-free, has exactly count elements and holds corpus poems
only. -/
theorem sampleLoop_some_spec (poems : List Poem) (count : Nat)
    (hne : poems ≠ []) :
    ∀ (draws : List Nat) (s t : List Poem), s.Nodup → s.length ≤ count →
      (∀ p, p ∈ s → p ∈ poems) →
      sampleLoop poems count draws s = some t →
      t.Nodup ∧ t.length = count ∧ ∀ p, p ∈ t → p ∈ poems := by
  intro draws
  induction draws with
  | nil =>
    intro s t hnd hle hmem hrun
    rw [sampleLoop] at hrun
    split at hrun
    · cases hrun
      exact ⟨hnd, le_antisymm hle (by assumption), hmem⟩
    · cases hrun
  | cons d rest ih =>
    intro s t hnd hle hmem hrun
    rw [sampleLoop] at hrun
    split at hrun
    · cases hrun
      exact ⟨hnd, le_antisymm hle (by assumption), hmem⟩
    · rename_i hlt
      refine ih _ t (hashSetInsert_nodup _ s hnd) ?_ ?_ hrun
      · calc (hashSetInsert _ s).length ≤ s.length + 1 :=
              hashSetInsert_length_le _ s
          _ ≤ count := by omega
      · intro p hp
        rcases (hashSetInsert_mem p _ s).mp hp with hp | hp
        · subst hp
          exact drawnPoem_mem poems hne d
        · exact hmem p hp

/-- Whenever the current set together with a supply of corpus poems covers
count distinct poems, some randomness makes the loop terminate. -/
theorem sampleLoop_reaches (poems : List Poem) (count : Nat)
    (_hne : poems ≠ []) :
    ∀ (es s : List Poem), (∀ e, e ∈ es → e ∈ poems) →
      count ≤ (s.toFinset ∪ es.toFinset).card →
      ∃ draws t, sampleLoop poems count draws s = some t := by
  intro es
  induction es with
  | nil =>
    intro s _ hcard
    refine ⟨[], s, ?_⟩
    rw [sampleLoop]
    have hle : count ≤ s.length := by
      calc count ≤ (s.toFinset ∪ ([] : List Poem).toFinset).card := hcard
        _ = s.toFinset.card := by simp
        _ ≤ s.length := List.toFinset_card_le s
    rw [if_pos hle]
  | cons e es ih =>
    intro s hcov hcard
    by_cases hle : count ≤ s.length
    · refine ⟨[], s, ?_⟩
      rw [sampleLoop, if_pos hle]
    · have he : e ∈ poems := hcov e (List.mem_cons_self e es)
      obtain ⟨i, hi, hget⟩ := List.mem_iff_getElem.mp he
      have hidx : poems.getD (i % poems.length) defaultPoem = e := by
        rw [Nat.mod_eq_of_lt hi, List.getD_eq_getElem poems defaultPoem hi,
          hget]
      obtain ⟨draws, t, ht⟩ :=
        ih (hashSetInsert e s) (fun q hq => hcov q (List.mem_cons_of_mem e hq))
          (by
            rw [hashSetInsert_toFinset, Finset.insert_union,
              ← Finset.union_insert, ← List.toFinset_cons]
            exact hcard)
      refine ⟨i :: draws, t, ?_⟩
      rw [sampleLoop, if_neg hle, hidx]
      exact ht

/-- The clamp of the Random arm is the minimum with the corpus length. -/
theorem clamp_eq_min (count n : Nat) :
    (if count > n then n else count) = min count n := by
  split <;> omega

/-- The Random arm reports a sampled set exactly when the loop, run with
the clamped count, terminates on the given randomness with that set. -/
theorem randomCommand_sampled_iff (poems : List Poem) (count : Nat)
    (draws : List Nat) (t : List Poem) (hne : poems ≠ []) :
    randomCommand poems count draws = .sampled t ↔
      sampleLoop poems (min count poems.length) draws [] = some t := by
  rw [randomCommand]
  have hfalse : poems.isEmpty = false := by simp [List.isEmpty_iff, hne]
  rw [hfalse]
  simp only [Bool.false_eq_true, if_false, clamp_eq_min]
  cases hrun : sampleLoop poems (min count poems.length) draws [] <;> simp

/-- Claim C2: whenever the Random command reports a sampled result, the
result consists of exactly the clamped count of pairwise distinct poems,
all drawn from the corpus, and when the clamped count equals the corpus
size the result is a permutation of the full corpus. -/
theorem random_sample_spec (poems : List Poem) (count : Nat)
    (draws : List Nat) (t : List Poem)
    (h : randomCommand poems count draws = .sampled t) :
    t.Nodup ∧ t.length = min count poems.length ∧ t ⊆ poems ∧
      (min count poems.length = poems.length → t.Perm poems) := by
  have hne : poems ≠ [] := by
    intro e
    subst e
    rw [randomCommand] at h
    simp at h
  rw [randomCommand_sampled_iff poems count draws t hne] at h
  obtain ⟨hnd, hlen, hmem⟩ :=
    sampleLoop_some_spec poems (min count poems.length) hne draws [] t
      List.nodup_nil (by simp) (by simp) h
  refine ⟨hnd, hlen, hmem, ?_⟩
  intro hfull
  have hsub : t.toFinset ⊆ poems.toFinset := by
    intro q hq
    exact List.mem_toFinset.mpr (hmem q (List.mem_toFinset.mp hq))
  have hcardt : t.toFinset.card = poems.length := by
    rw [List.toFinset_card_of_nodup hnd, hlen, hfull]
  have heq : t.toFinset = poems.toFinset := by
    refine Finset.eq_of_subset_of_card_le hsub ?_
    calc poems.toFinset.card ≤ poems.length := List.toFinset_card_le poems
      _ = t.toFinset.card := hcardt.symm
  have hdedup : poems.dedup.length = poems.length := by
    have := List.card_toFinset poems
    rw [← heq, hcardt] at this
    omega
  have hpnd : poems.Nodup := by
    rw [← List.dedup_eq_self]
    exact (List.dedup_sublist poems).eq_of_length hdedup
  exact List.perm_of_nodup_nodup_toFinset_eq hnd hpnd heq

/-- Claim C2 witness on a one-poem corpus. -/
theorem random_sample_spec_witness :
    ([pA] : List Poem).Nodup ∧
      ([pA] : List Poem).length = min 1 [pA].length ∧
      ([pA] : List Poem) ⊆ [pA] ∧ ([pA] : List Poem).Perm [pA] := by
  obtain ⟨h1, h2, h3, h4⟩ := random_sample_spec [pA] 1 [0] [pA] (by decide)
  exact ⟨h1, h2, h3, h4 (by decide)⟩

/-- Claim C9: with count 0 on a non-empty corpus the Random command prints
no poems and exits with status 0, and on an empty corpus it prints the
no-poem message and exits with status 0. -/
theorem random_edge_cases (poems : List Poem) (count : Nat)
    (draws : List Nat) (hne : poems ≠ []) :
    (randomCommand [] count draws).printedMessage = some "no poem in repo" ∧
      (randomCommand [] count draws).exitCode = some 0 ∧
      (randomCommand poems 0 draws).printedPoems = [] ∧
      (randomCommand poems 0 draws).exitCode = some 0 := by
  have hzero : randomCommand poems 0 draws = .sampled [] := by
    rw [randomCommand_sampled_iff poems 0 draws [] hne]
    cases draws <;> rw [sampleLoop] <;> rw [if_pos (by simp)]
  refine ⟨rfl, rfl, ?_, ?_⟩ <;> rw [hzero] <;> rfl

/-- Claim C9 witness. -/
theorem random_edge_cases_witness :
    (randomCommand [] 7 [1, 2]).printedMessage = some "no poem in repo" ∧
      (randomCommand [] 7 [1, 2]).exitCode = some 0 ∧
      (randomCommand [pA] 0 [1, 2]).printedPoems = [] ∧
      (randomCommand [pA] 0 [1, 2]).exitCode = some 0 :=
  random_edge_cases [pA] 7 [1, 2] (by decide)

/-- Claim C10: for a non-empty corpus, the rejection-sampling loop of the
Random command can terminate if and only if the corpus contains at least
the clamped count of distinct poems under the full-struct equality of
Poem; with fewer distinct poems than the clamped count, it never
terminates, whatever the randomness. -/
theorem random_loop_terminates_iff (poems : List Poem) (count : Nat)
    (hne : poems ≠ []) :
    (∃ draws t, randomCommand poems count draws = .sampled t) ↔
      min count poems.length ≤ poems.dedup.length := by
  constructor
  · rintro ⟨draws, t, ht⟩
    rw [randomCommand_sampled_iff poems count draws t hne] at ht
    obtain ⟨hnd, hlen, hmem⟩ :=
      sampleLoop_some_spec poems (min count poems.length) hne draws [] t
        List.nodup_nil (by simp) (by simp) ht
    have hsub : t.toFinset ⊆ poems.toFinset := by
      intro q hq
      exact List.mem_toFinset.mpr (hmem q (List.mem_toFinset.mp hq))
    calc min count poems.length = t.toFinset.card := by
          rw [List.toFinset_card_of_nodup hnd, hlen]
      _ ≤ poems.toFinset.card := Finset.card_le_card hsub
      _ = poems.dedup.length := List.card_toFinset poems
  · intro hcard
    obtain ⟨draws, t, ht⟩ :=
      sampleLoop_reaches poems (min count poems.length) hne
        (poems.dedup.take (min count poems.length)) []
        (fun e he =>
          List.mem_dedup.mp (List.mem_of_mem_take he))
        (by
          have hnd2 : (poems.dedup.take (min count poems.length)).Nodup :=
            (List.nodup_dedup poems).sublist (List.take_sublist _ _)
          rw [List.toFinset_nil, Finset.empty_union,
            List.toFinset_card_of_nodup hnd2, List.length_take]
          omega)
    exact ⟨draws, t,
      (randomCommand_sampled_iff poems count draws t hne).mpr ht⟩

/-- Claim C10 witness on a one-poem corpus. -/
theorem random_loop_terminates_iff_witness :
    (∃ draws t, randomCommand [pA] 1 draws = .sampled t) ↔
      min 1 [pA].length ≤ [pA].dedup.length :=
  random_loop_terminates_iff [pA] 1 (by decide)

/-- On the two-element duplicated corpus, asking for two distinct poems
makes the rejection-sampling loop spin forever: only one distinct poem
exists. -/
theorem dup_never_terminates : neverTerminates dupCorpus 2 := by
  intro draws
  cases h : sampleLoop dupCorpus 2 draws [] with
  | none => rfl
  | some t =>
    exfalso
    obtain ⟨hnd, hlen, hmem⟩ :=
      sampleLoop_some_spec dupCorpus 2 (by decide) draws [] t
        List.nodup_nil (by simp) (by simp) h
    have hsub : t.toFinset ⊆ dupCorpus.toFinset := fun q hq =>
      List.mem_toFinset.mpr (hmem q (List.mem_toFinset.mp hq))
    have h2 : t.toFinset.card = 2 := by
      rw [List.toFinset_card_of_nodup hnd, hlen]
    have hle : t.toFinset.card ≤ dupCorpus.toFinset.card :=
      Finset.card_le_card hsub
    have h1 : dupCorpus.toFinset.card = 1 := by decide
    omega

/-- Claim C3 counterexample: on the two-element corpus holding the same
poem twice, with count 2 (not exceeding the corpus size), the implemented
loop never returns for any randomness, while the shuffle-and-take
reference returns a full two-poem sample (every shuffle of this corpus is
the corpus itself); the implemented procedure therefore is not the
shuffle-and-take strategy. -/
theorem random_strategy_counterexample :
    neverTerminates dupCorpus 2 ∧ dupCorpus.length = 2 ∧
      shuffle_and_take dupCorpus 2 = dupCorpus :=
  ⟨dup_never_terminates, rfl, rfl⟩

/-- The set drawn by one more draw. -/
theorem drawnSet_cons (poems : List Poem) (d : Nat) (l : List Nat) :
    drawnSet poems (d :: l)
      = insert (poems.getD (d % poems.length) defaultPoem)
          (drawnSet poems l) := by
  rw [drawnSet, List.map_cons, List.toFinset_cons]
  rfl

/-- Shifting the first-hitting set across one loop iteration. -/
theorem firstHit_step (poems : List Poem) (d : Nat) (rest : List Nat)
    (k : Nat) (s : List Poem) :
    s.toFinset ∪ drawnSet poems ((d :: rest).take (k + 1))
      = (hashSetInsert (poems.getD (d % poems.length) defaultPoem)
          s).toFinset ∪ drawnSet poems (rest.take k) := by
  rw [List.take_succ_cons, drawnSet_cons, hashSetInsert_toFinset,
    Finset.union_insert, Finset.insert_union]

/-- The first element of a range starting at zero satisfying the predicate
is zero when the predicate holds there. -/
theorem find?_range_succ_of_pos (n : Nat) (p : Nat → Bool)
    (h : p 0 = true) :
    (List.range (n + 1)).find? p = some 0 := by
  rw [List.range_succ_eq_map, List.find?_cons_of_pos _ h]

/-- Searching a zero-based range whose head fails the predicate shifts to
the successor range. -/
theorem find?_range_succ_of_neg (n : Nat) (p : Nat → Bool)
    (h : ¬ p 0 = true) :
    (List.range (n + 1)).find? p
      = ((List.range n).find? (p ∘ Nat.succ)).map Nat.succ := by
  rw [List.range_succ_eq_map, List.find?_cons_of_neg _ h, List.find?_map]

/-- The rejection-sampling loop, viewed through the sets it returns, equals
the first-hitting-time formulation: the returned set is the set drawn by
the shortest randomness prefix that covers count distinct poems beyond the
starting set. -/
theorem sampleLoop_eq_firstHit (poems : List Poem) (count : Nat) :
    ∀ (draws : List Nat) (s : List Poem), s.Nodup →
      (sampleLoop poems count draws s).map List.toFinset =
        (match (List.range (draws.length + 1)).find?
            (fun k =>
              count ≤ (s.toFinset ∪ drawnSet poems (draws.take k)).card) with
         | some k => some (s.toFinset ∪ drawnSet poems (draws.take k))
         | none => none) := by
  intro draws
  induction draws with
  | nil =>
    intro s hnd
    have hset : s.toFinset ∪ drawnSet poems (List.take 0 ([] : List Nat))
        = s.toFinset := by
      rw [List.take_nil]
      rw [show drawnSet poems [] = ∅ from rfl]
      exact Finset.union_empty s.toFinset
    rw [sampleLoop]
    simp only [List.length_nil]
    by_cases h : count ≤ s.length
    · have hp : (decide (count ≤ (s.toFinset
          ∪ drawnSet poems (List.take 0 ([] : List Nat))).card)) = true := by
        rw [hset, List.toFinset_card_of_nodup hnd]
        exact decide_eq_true h
      rw [if_pos h, find?_range_succ_of_pos 0 _ hp]
      exact congrArg some hset.symm
    · have hp : ¬ (decide (count ≤ (s.toFinset
          ∪ drawnSet poems (List.take 0 ([] : List Nat))).card)) = true := by
        rw [hset, List.toFinset_card_of_nodup hnd]
        simpa using h
      rw [if_neg h, find?_range_succ_of_neg 0 _ hp]
      simp
  | cons d rest ih =>
    intro s hnd
    have hset0 : s.toFinset ∪ drawnSet poems (List.take 0 (d :: rest))
        = s.toFinset := by
      rw [List.take_zero]
      rw [show drawnSet poems [] = ∅ from rfl]
      exact Finset.union_empty s.toFinset
    rw [sampleLoop]
    simp only [List.length_cons]
    by_cases h : count ≤ s.length
    · have hp : (decide (count ≤ (s.toFinset
          ∪ drawnSet poems (List.take 0 (d :: rest))).card)) = true := by
        rw [hset0, List.toFinset_card_of_nodup hnd]
        exact decide_eq_true h
      rw [if_pos h, find?_range_succ_of_pos (rest.length + 1) _ hp]
      exact congrArg some hset0.symm
    · have hp : ¬ (decide (count ≤ (s.toFinset
          ∪ drawnSet poems (List.take 0 (d :: rest))).card)) = true := by
        rw [hset0, List.toFinset_card_of_nodup hnd]
        simpa using h
      rw [if_neg h,
        ih (hashSetInsert (poems.getD (d % poems.length) defaultPoem) s)
          (hashSetInsert_nodup _ s hnd),
        find?_range_succ_of_neg (rest.length + 1) _ hp]
      have hfun : ((fun k =>
            decide (count ≤ (s.toFinset
              ∪ drawnSet poems (List.take k (d :: rest))).card)) ∘ Nat.succ)
          = fun k => decide (count ≤
              ((hashSetInsert (poems.getD (d % poems.length) defaultPoem)
                s).toFinset ∪ drawnSet poems (List.take k rest)).card) := by
        funext k
        rw [Function.comp_apply]
        rw [show Nat.succ k = k + 1 from rfl, firstHit_step]
      rw [hfun]
      cases hf : (List.range (rest.length + 1)).find?
          (fun k => decide (count ≤
            ((hashSetInsert (poems.getD (d % poems.length) defaultPoem)
              s).toFinset ∪ drawnSet poems (List.take k rest)).card)) with
      | none => rfl
      | some k =>
        exact congrArg some (firstHit_step poems d rest k s).symm

/-- Claim C3 amended: the implemented random-sampling procedure is the
rejection-sampling strategy, repeated random index draws inserted into a
deduplicating set until count distinct poems are reached (its terminating
runs return exactly the first-hitting drawn sets of that description), and
it is not equal in behavior to the shuffle-and-take reference: on a corpus
with duplicate records a shuffle-and-take sample of the full corpus size
succeeds while the implemented loop never terminates. -/
theorem random_sampling_is_rejection :
    (∀ (poems : List Poem) (count : Nat) (draws : List Nat),
        (sampleLoop poems count draws []).map List.toFinset
          = rejection_sampling poems count draws) ∧
      (∃ (poems : List Poem) (count : Nat),
        count ≤ poems.length ∧ neverTerminates poems count ∧
          (shuffle_and_take poems count).length = count) := by
  constructor
  · intro poems count draws
    rw [sampleLoop_eq_firstHit poems count draws [] List.nodup_nil,
      rejection_sampling]
    have hfun : (fun k => decide (count ≤
          ((List.toFinset ([] : List Poem))
            ∪ drawnSet poems (draws.take k)).card))
        = fun k => decide (count ≤ (drawnSet poems (draws.take k)).card) := by
      funext k
      rw [List.toFinset_nil, Finset.empty_union]
    rw [hfun]
    cases hf : (List.range (draws.length + 1)).find?
        (fun k => decide (count ≤ (drawnSet poems (draws.take k)).card)) with
    | none => rfl
    | some k => simp
  · exact ⟨dupCorpus, 2, by decide, dup_never_terminates, by decide⟩

end PoemSpec
